import Mathlib

/-!
Shallow embedding of the marine sensor network simulator (`src/app.py`) and
verification of its specification.

The source is a single Python script.  Its computational core is the pipeline
  node generation (lines 26-28) → clustering (lines 36-51) →
  route construction (lines 56-69) → per-node link cost model (lines 74-105).
The Streamlit/matplotlib presentation code is out of scope.

Modelling conventions:
* Node and base-station coordinates are integers (`np.random.randint` draws
  integers; the base station is `[area_size//2, 20]`), so a `Point` is `ℤ × ℤ`.
* `math.dist` (line 30-31) is embedded as `Real.sqrt` of the integer squared
  distance; the Python floats are idealised as real numbers.  All comparisons
  the algorithms perform on distances are carried out on the (computable)
  integer squared distances, which is provably the same ordering, so the
  clustering and routing functions stay executable.
* The `round(x, k)` calls on line 105 format the displayed per-node tuple;
  the model records the exact values they are applied to.  The aggregate sums
  on lines 101-103 use the unrounded values in the source as well.
* `np.random.seed` / `np.random.randint` are NumPy library calls (not code of
  this repository); they are modelled by their documented contract: a
  deterministic generator seeded only by the seed argument, drawing integers
  in `[low, high)`, raising `ValueError` when `low >= high` or when a
  dimension of the requested shape is negative.  The concrete stream is a
  64-bit LCG standing in for MT19937 (the spec, section 4.2, requires only
  per-language reproducibility, not a bit-exact legacy stream).
-/

namespace MarineSim

/-- A 2D point with integer coordinates.  Generated nodes have integer
coordinates (`np.random.randint`, line 27) and so does the base station
(line 28). -/
abbrev Point := ℤ × ℤ

/-- Squared Euclidean distance between two points, as an integer.  This is the
radicand of `math.dist(a, b)` (lines 30-31). -/
def distanceSq (a b : Point) : ℤ := (a.1 - b.1) ^ 2 + (a.2 - b.2) ^ 2

/-- `distance(a, b)` (lines 30-31): Euclidean distance `math.dist(a, b)`. -/
noncomputable def distance (a b : Point) : ℝ := Real.sqrt ((distanceSq a b : ℤ) : ℝ)

lemma distanceSq_nonneg (a b : Point) : 0 ≤ distanceSq a b :=
  add_nonneg (sq_nonneg _) (sq_nonneg _)

lemma distanceSq_cast_nonneg (a b : Point) : (0 : ℝ) ≤ ((distanceSq a b : ℤ) : ℝ) := by
  exact_mod_cast distanceSq_nonneg a b

/-- Comparing Euclidean distances is the same as comparing squared distances:
this is why the executable model may select minima by `distanceSq`. -/
lemma distance_le_distance_iff (a b c d : Point) :
    distance a b ≤ distance c d ↔ distanceSq a b ≤ distanceSq c d := by
  unfold distance
  rw [Real.sqrt_le_sqrt_iff (distanceSq_cast_nonneg c d)]
  exact Int.cast_le

lemma distance_lt_distance_iff (a b c d : Point) :
    distance a b < distance c d ↔ distanceSq a b < distanceSq c d := by
  unfold distance
  rw [Real.sqrt_lt_sqrt_iff (distanceSq_cast_nonneg a b)]
  exact Int.cast_lt

/-- The three values of the `network_type` selectbox (lines 16-19). -/
inductive Transport
  | RF
  | CABLED
  | ACOUSTIC
deriving DecidableEq

/-- One row of the `results` list (line 105): the tuple
`(d, delay, energy)` appended for each node, with the exact (unrounded)
values.  Note that in the ACOUSTIC branch the variable `d` has already been
reassigned to `d * 0.8` when `enable_sofar` holds (lines 97-98), so the
`distance` field is whatever `d` holds at line 105, not necessarily the
Euclidean distance. -/
structure LinkMetric where
  distance : ℝ
  delay : ℝ
  energy : ℝ

/-- The body of the communication-model loop for one node (lines 79-105
without the accumulation): compute `d = distance(node, base_station)`, branch
on the transport type, optionally discount `d` by `0.8` for SOFAR, and return
the tuple appended to `results`. -/
noncomputable def nodeMetric (t : Transport) (sofar : Bool) (node base : Point) :
    LinkMetric :=
  let d := distance node base
  match t with
  | Transport.RF =>
      { distance := d, delay := d / 300000000, energy := d * 0.06 }
  | Transport.CABLED =>
      { distance := d, delay := d / 200000000, energy := d * 0.015 }
  | Transport.ACOUSTIC =>
      let energy := d * 0.12
      let d2 := if sofar then d * 0.8 else d
      { distance := d2, delay := d2 / 1500, energy := energy }

/-- The per-transport fixed synchronization constant `sync`
(lines 85, 90, 95). -/
noncomputable def syncConst : Transport → ℝ
  | Transport.RF => 0.00002
  | Transport.CABLED => 0.00001
  | Transport.ACOUSTIC => 0.002

/-- The communication-model loop (lines 74-105): iterate over the nodes in
generation order, appending each node's tuple to `results` and accumulating
`total_energy`, `total_delay` and `sync_overhead` (in that field order). -/
noncomputable def commLoop (t : Transport) (sofar : Bool) (base : Point)
    (nodes : List Point) : List LinkMetric × ℝ × ℝ × ℝ :=
  nodes.foldl
    (fun acc node =>
      let m := nodeMetric t sofar node base
      (acc.1 ++ [m], acc.2.1 + m.energy, acc.2.2.1 + m.delay, acc.2.2.2 + syncConst t))
    ([], 0, 0, 0)

lemma commLoop_aux (t : Transport) (sofar : Bool) (base : Point) :
    ∀ (nodes : List Point) (acc : List LinkMetric × ℝ × ℝ × ℝ),
      nodes.foldl
        (fun acc node =>
          let m := nodeMetric t sofar node base
          (acc.1 ++ [m], acc.2.1 + m.energy, acc.2.2.1 + m.delay,
            acc.2.2.2 + syncConst t)) acc =
      (acc.1 ++ nodes.map (fun p => nodeMetric t sofar p base),
       acc.2.1 + (nodes.map (fun p => (nodeMetric t sofar p base).energy)).sum,
       acc.2.2.1 + (nodes.map (fun p => (nodeMetric t sofar p base).delay)).sum,
       acc.2.2.2 + (nodes.length : ℝ) * syncConst t) := by
  intro nodes
  induction nodes with
  | nil => intro acc; simp
  | cons p rest ih =>
      intro acc
      rw [List.foldl_cons, ih]
      simp only [List.map_cons, List.sum_cons, List.length_cons]
      refine Prod.ext ?_ (Prod.ext ?_ (Prod.ext ?_ ?_)) <;> simp <;> ring

/-- `commLoop` in closed form: the `results` list is the map of the per-node
metric over the nodes, and the accumulators are the corresponding sums. -/
lemma commLoop_eq (t : Transport) (sofar : Bool) (base : Point)
    (nodes : List Point) :
    commLoop t sofar base nodes =
      (nodes.map (fun p => nodeMetric t sofar p base),
       (nodes.map (fun p => (nodeMetric t sofar p base).energy)).sum,
       (nodes.map (fun p => (nodeMetric t sofar p base).delay)).sum,
       (nodes.length : ℝ) * syncConst t) := by
  unfold commLoop
  rw [commLoop_aux]
  simp

/-- C1, counterexample: a node 1500 m above the base station, ACOUSTIC
transport with SOFAR enabled.  The `distance` entry of the per-node result
tuple is `1200 = 0.8 × 1500`, not the Euclidean distance `1500`: the code
reassigns `d = d * 0.8` (line 98) before appending `round(d, 2)` (line 105). -/
theorem C1_cex :
    (nodeMetric Transport.ACOUSTIC true ((500 : ℤ), (1520 : ℤ)) ((500 : ℤ), (20 : ℤ))).distance
        = 1200
    ∧ distance ((500 : ℤ), (1520 : ℤ)) ((500 : ℤ), (20 : ℤ)) = 1500
    ∧ (nodeMetric Transport.ACOUSTIC true ((500 : ℤ), (1520 : ℤ)) ((500 : ℤ), (20 : ℤ))).distance
        ≠ distance ((500 : ℤ), (1520 : ℤ)) ((500 : ℤ), (20 : ℤ)) := by
  have hd : distance ((500 : ℤ), (1520 : ℤ)) ((500 : ℤ), (20 : ℤ)) = 1500 := by
    unfold distance distanceSq
    norm_num
    rw [show (2250000 : ℝ) = 1500 ^ 2 by norm_num]
    exact Real.sqrt_sq (by norm_num)
  refine ⟨?_, hd, ?_⟩
  · simp only [nodeMetric, hd]
    norm_num
  · simp only [nodeMetric, hd]
    norm_num

/-- C1, amended: under ACOUSTIC transport with SOFAR enabled, the `distance`
entry stored in the per-node result tuple is the SOFAR-adjusted distance
`0.8 × d`, not the full Euclidean distance; with SOFAR disabled it is the full
distance.  The `results` list consists of exactly these tuples, in node
generation order. -/
theorem C1_sofar_distance (node base : Point) (nodes : List Point) :
    (nodeMetric Transport.ACOUSTIC true node base).distance
        = 0.8 * distance node base
    ∧ (nodeMetric Transport.ACOUSTIC false node base).distance
        = distance node base
    ∧ (commLoop Transport.ACOUSTIC true base nodes).1
        = nodes.map (fun p => nodeMetric Transport.ACOUSTIC true p base) := by
  refine ⟨?_, ?_, ?_⟩
  · simp [nodeMetric]
    ring
  · simp [nodeMetric]
  · rw [commLoop_eq]

/-- C4: under ACOUSTIC transport the `energy` entry is `0.12 ×` the true
Euclidean distance to the base station whether or not SOFAR is enabled
(`energy` is computed on line 94 before `d` is discounted on line 98), while
the `delay` entry is `(0.8 × d) / 1500` with SOFAR and `d / 1500` without. -/
theorem C4_acoustic_energy_delay (node base : Point) (sofar : Bool) :
    (nodeMetric Transport.ACOUSTIC sofar node base).energy
        = 0.12 * distance node base
    ∧ (nodeMetric Transport.ACOUSTIC true node base).delay
        = (0.8 * distance node base) / 1500
    ∧ (nodeMetric Transport.ACOUSTIC false node base).delay
        = distance node base / 1500 := by
  refine ⟨?_, ?_, ?_⟩
  · cases sofar <;> · simp [nodeMetric]; ring
  · simp [nodeMetric]; ring
  · simp [nodeMetric]

/-- C5: the aggregates accumulated by the loop on lines 74-105 are the sum of
the per-node delays, the sum of the per-node energies, and
`node_count × syncConst` respectively. -/
theorem C5_aggregates (t : Transport) (sofar : Bool) (base : Point)
    (nodes : List Point) :
    (commLoop t sofar base nodes).2.2.1
        = ((commLoop t sofar base nodes).1.map (fun m => m.delay)).sum
    ∧ (commLoop t sofar base nodes).2.1
        = ((commLoop t sofar base nodes).1.map (fun m => m.energy)).sum
    ∧ (commLoop t sofar base nodes).2.2.2
        = (nodes.length : ℝ) * syncConst t := by
  rw [commLoop_eq]
  refine ⟨?_, ?_, rfl⟩ <;> simp [List.map_map, Function.comp_def]

/-- `np.argmin` over a list of keys: the first index attaining the minimum
(NumPy documents that in case of ties the first occurrence is returned).
An empty list is never passed at the call sites. -/
def argminD : List ℤ → ℕ
  | [] => 0
  | [_] => 0
  | d :: e :: ds =>
    let j := argminD (e :: ds)
    if (e :: ds).getD j 0 < d then j + 1 else 0

lemma argminD_cons_cons (d e : ℤ) (ds : List ℤ) :
    argminD (d :: e :: ds)
      = if (e :: ds).getD (argminD (e :: ds)) 0 < d then argminD (e :: ds) + 1 else 0 :=
  rfl

/-- `argminD` is in range, attains the minimum, and every earlier index has a
strictly larger key (first-occurrence tie-breaking). -/
lemma argminD_spec (l : List ℤ) (h : l ≠ []) :
    argminD l < l.length
    ∧ (∀ j < l.length, l.getD (argminD l) 0 ≤ l.getD j 0)
    ∧ (∀ j < argminD l, l.getD j 0 > l.getD (argminD l) 0) := by
  induction l with
  | nil => exact absurd rfl h
  | cons d t ih =>
    cases t with
    | nil =>
      refine ⟨by simp [argminD], ?_, ?_⟩
      · intro j hj
        have hj0 : j = 0 := by
          simpa [Nat.lt_one_iff] using hj
        subst hj0
        simp [argminD]
      · intro j hj
        simp [argminD] at hj
    | cons e ds =>
      obtain ⟨h1, h2, h3⟩ := ih (by simp)
      rw [argminD_cons_cons]
      by_cases hc : (e :: ds).getD (argminD (e :: ds)) 0 < d
      · rw [if_pos hc]
        refine ⟨by simpa using h1, ?_, ?_⟩
        · intro j hj
          cases j with
          | zero => simpa using le_of_lt hc
          | succ j' =>
            simp only [List.getD_cons_succ]
            exact h2 j' (by simpa using hj)
        · intro j hj
          cases j with
          | zero => simpa using hc
          | succ j' =>
            simp only [List.getD_cons_succ]
            exact h3 j' (by omega)
      · rw [if_neg hc]
        refine ⟨by simp, ?_, ?_⟩
        · intro j hj
          cases j with
          | zero => simp
          | succ j' =>
            simp only [List.getD_cons_zero, List.getD_cons_succ]
            exact le_trans (le_of_not_lt hc) (h2 j' (by simpa using hj))
        · intro j hj
          omega

lemma getD_map_distanceSq (cur : Point) (l : List Point) (i : ℕ)
    (h : i < l.length) :
    (l.map (fun p => distanceSq cur p)).getD i 0
      = distanceSq cur (l.getD i ((0 : ℤ), (0 : ℤ))) := by
  simp [List.getD_eq_getElem?_getD, List.getElem?_map, List.getElem?_eq_getElem h]

lemma getD_mem_of_lt {α : Type} (l : List α) (i : ℕ) (d : α) (h : i < l.length) :
    l.getD i d ∈ l := by
  rw [List.getD_eq_getElem?_getD, List.getElem?_eq_getElem h]
  exact List.getElem_mem h

/-- `min(remaining, key=lambda p: distance(current, p))` (line 62).  Python's
`min` returns the element at the first index attaining the minimal key; the
key comparison on Euclidean distances is carried out on integer squared
distances (`distance_lt_distance_iff`). -/
def selectNearest (cur : Point) (l : List Point) : Point :=
  l.getD (argminD (l.map (fun p => distanceSq cur p))) ((0 : ℤ), (0 : ℤ))

lemma argminD_lt_length (cur : Point) (l : List Point) (h : l ≠ []) :
    argminD (l.map (fun p => distanceSq cur p)) < l.length := by
  have hm : l.map (fun p => distanceSq cur p) ≠ [] := by simp [h]
  have := (argminD_spec _ hm).1
  simpa using this

lemma selectNearest_mem (cur : Point) (l : List Point) (h : l ≠ []) :
    selectNearest cur l ∈ l :=
  getD_mem_of_lt _ _ _ (argminD_lt_length cur l h)

/-- The node the greedy step picks, as the spec words it: some position `j`
holds the picked node, no node is strictly closer to `cur`, and every node at
an earlier position is strictly farther (ties broken in favour of the first
node in iteration order). -/
def FirstChoice (cur : Point) (l : List Point) (p : Point) : Prop :=
  ∃ j, j < l.length ∧ l.getD j ((0 : ℤ), (0 : ℤ)) = p
    ∧ (∀ i < l.length,
        distance cur p ≤ distance cur (l.getD i ((0 : ℤ), (0 : ℤ))))
    ∧ (∀ i < j,
        distance cur p < distance cur (l.getD i ((0 : ℤ), (0 : ℤ))))

lemma firstChoice_selectNearest (cur : Point) (l : List Point) (h : l ≠ []) :
    FirstChoice cur l (selectNearest cur l) := by
  have hm : l.map (fun p => distanceSq cur p) ≠ [] := by simp [h]
  obtain ⟨h1, h2, h3⟩ := argminD_spec _ hm
  rw [List.length_map] at h1
  refine ⟨argminD (l.map (fun p => distanceSq cur p)), h1, rfl, ?_, ?_⟩
  · intro i hi
    rw [distance_le_distance_iff]
    have := h2 i (by simpa using hi)
    rwa [getD_map_distanceSq cur l _ h1, getD_map_distanceSq cur l _ hi] at this
  · intro i hi
    rw [distance_lt_distance_iff]
    have := h3 i hi
    rwa [getD_map_distanceSq cur l _ h1,
         getD_map_distanceSq cur l _ (lt_trans hi h1)] at this

/-- `remaining.remove(nearest)` (line 64): Python's `list.remove` deletes the
first element equal to the given value. -/
def removeFirst : List Point → Point → List Point
  | [], _ => []
  | x :: xs, p => if x = p then xs else x :: removeFirst xs p

lemma removeFirst_length_lt : ∀ (l : List Point) (p : Point), p ∈ l →
    (removeFirst l p).length < l.length := by
  intro l
  induction l with
  | nil => intro p hp; simp at hp
  | cons x xs ih =>
    intro p hp
    by_cases hx : x = p
    · simp [removeFirst, hx]
    · have hp' : p ∈ xs := by
        rcases List.mem_cons.mp hp with h' | h'
        · exact absurd h'.symm hx
        · exact h'
      simp only [removeFirst, if_neg hx, List.length_cons]
      exact Nat.succ_lt_succ (ih p hp')

lemma removeFirst_perm : ∀ (l : List Point) (p : Point), p ∈ l →
    l.Perm (p :: removeFirst l p) := by
  intro l
  induction l with
  | nil => intro p hp; simp at hp
  | cons x xs ih =>
    intro p hp
    by_cases hx : x = p
    · simp [removeFirst, hx]
    · have hp' : p ∈ xs := by
        rcases List.mem_cons.mp hp with h' | h'
        · exact absurd h'.symm hx
        · exact h'
      rw [removeFirst, if_neg hx]
      exact ((ih p hp').cons x).trans (List.Perm.swap p x _)

/-- The body of the `while remaining:` loop of `build_route` (lines 61-65),
expressed as the list of visited nodes: pick the nearest remaining node,
append it, remove it from `remaining`, and continue from it. -/
def greedyVisit (cur : Point) (l : List Point) : List Point :=
  match l with
  | [] => []
  | x :: xs =>
    let nearest := selectNearest cur (x :: xs)
    nearest :: greedyVisit nearest (removeFirst (x :: xs) nearest)
termination_by l.length
decreasing_by
  exact removeFirst_length_lt _ _ (selectNearest_mem cur (x :: xs) (by simp))

/-- `build_route(nodes, start)` (lines 56-67): the route starts with `start`
(the base station) and continues with the greedy nearest-neighbor visiting
order of the nodes. -/
def build_route (nodes : List Point) (start : Point) : List Point :=
  start :: greedyVisit start nodes

/-- The spec's description of the greedy tour: each step picks the remaining
node with minimal distance to the current position (first such node in the
remaining sequence's iteration order on ties), removes it, and recurses from
it. -/
inductive GreedyRoute : Point → List Point → List Point → Prop where
  | nil : ∀ cur, GreedyRoute cur [] []
  | cons : ∀ cur p l rest, FirstChoice cur l p →
      GreedyRoute p (removeFirst l p) rest → GreedyRoute cur l (p :: rest)

lemma greedyVisit_good (cur : Point) (l : List Point) :
    (greedyVisit cur l).Perm l ∧ GreedyRoute cur l (greedyVisit cur l) := by
  cases l with
  | nil =>
    rw [greedyVisit]
    exact ⟨List.Perm.refl _, GreedyRoute.nil cur⟩
  | cons x xs =>
    have hne : (x :: xs : List Point) ≠ [] := by simp
    have hmem := selectNearest_mem cur (x :: xs) hne
    have hfc := firstChoice_selectNearest cur (x :: xs) hne
    have ih := greedyVisit_good (selectNearest cur (x :: xs))
      (removeFirst (x :: xs) (selectNearest cur (x :: xs)))
    rw [greedyVisit]
    refine ⟨?_, GreedyRoute.cons _ _ _ _ hfc ih.2⟩
    exact (ih.1.cons _).trans (removeFirst_perm _ _ hmem).symm
termination_by l.length
decreasing_by
  exact removeFirst_length_lt _ _ hmem

/-- C6: the route starts at the base station, has length `node_count + 1`,
its tail is a permutation of the node list (every node exactly once, counted
with multiplicity), and the visiting order is the greedy nearest-neighbor
order with first-in-iteration-order tie-breaking. -/
theorem C6_route_greedy (nodes : List Point) (start : Point) :
    (build_route nodes start).length = nodes.length + 1
    ∧ (build_route nodes start).head? = some start
    ∧ (build_route nodes start).tail.Perm nodes
    ∧ GreedyRoute start nodes ((build_route nodes start).tail) := by
  have h := greedyVisit_good start nodes
  refine ⟨?_, rfl, h.1, h.2⟩
  simp [build_route, h.1.length_eq]

/-- The local variables of `build_route` (lines 56-67) together with the
caller's `nodes` array: `remaining = nodes.tolist()` is a copy (line 57),
`route` starts as `[start]` (line 58), `current` starts as `start`
(line 59). -/
structure RouteVars where
  nodes : List Point
  remaining : List Point
  route : List Point
  current : Point

/-- The `while remaining:` loop (lines 61-65) as a state transformer: each
iteration reads `remaining`/`current` and writes `remaining`, `route` and
`current`; the `nodes` field is never written. -/
def routeLoop (v : RouteVars) : RouteVars :=
  match h : v.remaining with
  | [] => v
  | x :: xs =>
    let nearest := selectNearest v.current v.remaining
    routeLoop { nodes := v.nodes, remaining := removeFirst v.remaining nearest,
                route := v.route ++ [nearest], current := nearest }
termination_by v.remaining.length
decreasing_by
  exact removeFirst_length_lt _ _
    (selectNearest_mem v.current v.remaining (by rw [h]; simp))

/-- `route = build_route(nodes, base_station)` (line 69) at the state level:
initialize the loop variables and run the loop. -/
def buildRouteProg (nodes : List Point) (start : Point) : RouteVars :=
  routeLoop { nodes := nodes, remaining := nodes, route := [start], current := start }

lemma routeLoop_nodes (v : RouteVars) : (routeLoop v).nodes = v.nodes := by
  rw [routeLoop.eq_1]
  split
  · rfl
  · rw [routeLoop_nodes]
termination_by v.remaining.length
decreasing_by
  rename_i x xs h
  have := removeFirst_length_lt v.remaining
    (selectNearest v.current v.remaining)
    (selectNearest_mem v.current v.remaining (by rw [h]; simp))
  simpa using this

lemma routeLoop_route (v : RouteVars) :
    (routeLoop v).route = v.route ++ greedyVisit v.current v.remaining := by
  rw [routeLoop.eq_1]
  split
  · rename_i h
    rw [h, greedyVisit]
    simp
  · rename_i x xs h
    rw [routeLoop_route]
    rw [h, greedyVisit]
    simp [List.append_assoc]
termination_by v.remaining.length
decreasing_by
  rename_i x xs h
  have := removeFirst_length_lt v.remaining
    (selectNearest v.current v.remaining)
    (selectNearest_mem v.current v.remaining (by rw [h]; simp))
  simpa using this

/-- C10: the route-building loop never writes the `nodes` variable (it works
on the copy `remaining = nodes.tolist()`), its `route` variable ends up equal
to `build_route(nodes, start)`, and the subsequent per-node metric loop over
the unchanged `nodes` therefore computes exactly what it would have computed
before routing. -/
theorem C10_route_frame (nodes : List Point) (start : Point) (t : Transport)
    (sofar : Bool) (base : Point) :
    (buildRouteProg nodes start).nodes = nodes
    ∧ (buildRouteProg nodes start).route = build_route nodes start
    ∧ commLoop t sofar base ((buildRouteProg nodes start).nodes)
        = commLoop t sofar base nodes := by
  have h1 : (buildRouteProg nodes start).nodes = nodes := routeLoop_nodes _
  refine ⟨h1, ?_, by rw [h1]⟩
  unfold buildRouteProg build_route
  rw [routeLoop_route]
  simp

/-- `k = max(2, num_nodes // 4)` (line 40). -/
def kOf (n : ℕ) : ℕ := max 2 (n / 4)

/-- `cluster_centers = nodes[:k]` (line 43).  NumPy slicing clamps: for fewer
than `k` nodes this yields all of them. -/
def cluster_centers (nodes : List Point) : List Point :=
  nodes.take (kOf nodes.length)

/-- `dists = [distance(node, c) for c in cluster_centers]; cid = np.argmin(dists)`
(lines 49-50): the index of the first nearest center. -/
def assignIdx (nodes : List Point) (p : Point) : ℕ :=
  argminD ((cluster_centers nodes).map (fun c => distanceSq p c))

/-- The `clusters` dict (lines 36-51) as a function from cluster id to member
list: initialized to `[]` for every id (lines 45-46), then each node is
appended to the list of its nearest center (lines 48-51), in generation
order. -/
def clustersFun (nodes : List Point) : ℕ → List Point :=
  nodes.foldl
    (fun f p => Function.update f (assignIdx nodes p) (f (assignIdx nodes p) ++ [p]))
    (fun _ => [])

/-- The `clusters` dict as the list of its values at keys `0, ..., k-1`
(the keys created on lines 45-46). -/
def clusterLists (nodes : List Point) : List (List Point) :=
  (List.range (kOf nodes.length)).map (clustersFun nodes)

/-- The Cluster entities of the spec: each center from `cluster_centers`
paired with its member list, exactly as the presentation layer consumes them
(`for i, c in enumerate(cluster_centers): ... clusters[i]`, lines 119-122). -/
def clusterRecords (nodes : List Point) : List (Point × List Point) :=
  (List.range (cluster_centers nodes).length).map
    (fun i => ((cluster_centers nodes).getD i ((0 : ℤ), (0 : ℤ)), clustersFun nodes i))

lemma foldl_update_apply (nodes : List Point) :
    ∀ (l : List Point) (f : ℕ → List Point) (i : ℕ),
      (l.foldl
        (fun f p => Function.update f (assignIdx nodes p) (f (assignIdx nodes p) ++ [p]))
        f) i
      = f i ++ l.filter (fun p => assignIdx nodes p == i) := by
  intro l
  induction l with
  | nil => intro f i; simp
  | cons p rest ih =>
    intro f i
    rw [List.foldl_cons, ih]
    by_cases hpi : assignIdx nodes p = i
    · rw [hpi, Function.update_same]
      simp [List.filter_cons, hpi]
    · rw [Function.update_noteq (Ne.symm hpi)]
      simp [List.filter_cons, hpi]

/-- The member list at key `i` is exactly the subsequence of nodes whose
nearest-center index is `i`, in generation order. -/
lemma clustersFun_eq_filter (nodes : List Point) (i : ℕ) :
    clustersFun nodes i = nodes.filter (fun p => assignIdx nodes p == i) := by
  unfold clustersFun
  rw [foldl_update_apply]
  simp

/-- C2: with a single node, the cluster records are exactly one cluster whose
center is that node and whose member list is that node; in general the number
of clusters produced (center/member-list pairs) is at most the number of
nodes, because the center slice `nodes[:k]` clamps at `len(nodes)`. -/
theorem C2_degenerate_cluster :
    (∀ p : Point, clusterRecords [p] = [(p, [p])])
    ∧ ∀ nodes : List Point, (clusterRecords nodes).length ≤ nodes.length := by
  constructor
  · intro p
    have hc : cluster_centers [p] = [p] := by
      simp [cluster_centers, kOf]
    have ha : assignIdx [p] p = 0 := by
      simp [assignIdx, hc, argminD]
    have hf : clustersFun [p] 0 = [p] := by
      rw [clustersFun_eq_filter]
      simp [List.filter_cons, ha]
    simp [clusterRecords, hc, List.range_succ, hf]
  · intro nodes
    simp only [clusterRecords, List.length_map, List.length_range, cluster_centers,
      List.length_take]
    exact min_le_right _ _

lemma cluster_centers_ne_nil (nodes : List Point) (h : nodes ≠ []) :
    cluster_centers nodes ≠ [] := by
  unfold cluster_centers
  rw [Ne, List.take_eq_nil_iff]
  push_neg
  exact ⟨by simp [kOf], h⟩

lemma assignIdx_lt_length (nodes : List Point) (p : Point) (h : nodes ≠ []) :
    assignIdx nodes p < (cluster_centers nodes).length := by
  have hm : (cluster_centers nodes).map (fun c => distanceSq p c) ≠ [] := by
    simp [cluster_centers_ne_nil nodes h]
  have := (argminD_spec _ hm).1
  simpa [assignIdx] using this

lemma assignIdx_lt_k (nodes : List Point) (p : Point) (h : nodes ≠ []) :
    assignIdx nodes p < kOf nodes.length := by
  have h1 := assignIdx_lt_length nodes p h
  have h2 : (cluster_centers nodes).length ≤ kOf nodes.length := by
    simp [cluster_centers, List.length_take]
  omega

lemma clusterLists_getD (nodes : List Point) (i : ℕ) (h : i < kOf nodes.length) :
    (clusterLists nodes).getD i [] = clustersFun nodes i := by
  unfold clusterLists
  rw [List.getD_eq_getElem?_getD, List.getElem?_map, List.getElem?_range h]
  rfl

/-- Occurrence count of a point in a list (kept self-contained so that all
multiset reasoning happens over one notion of equality). -/
def countPt (a : Point) : List Point → ℕ
  | [] => 0
  | x :: xs => countPt a xs + (if x = a then 1 else 0)

lemma countPt_pos_iff (a : Point) : ∀ (l : List Point), 0 < countPt a l ↔ a ∈ l := by
  intro l
  induction l with
  | nil => simp [countPt]
  | cons x xs ih =>
    by_cases hxa : x = a
    · subst hxa
      simp [countPt]
    · simp [countPt, hxa, ih, Ne.symm hxa]

lemma countPt_eq_zero (a : Point) (l : List Point) : countPt a l = 0 ↔ a ∉ l := by
  rw [← countPt_pos_iff]
  omega

lemma countPt_removeFirst (a p : Point) :
    ∀ (l : List Point), p ∈ l →
      countPt a (removeFirst l p) = countPt a l - (if p = a then 1 else 0) := by
  intro l
  induction l with
  | nil => intro hp; simp at hp
  | cons x xs ih =>
    intro hp
    by_cases hxp : x = p
    · subst hxp
      have hr : removeFirst (x :: xs) x = xs := by simp [removeFirst]
      rw [hr]
      simp only [countPt]
      omega
    · have hp' : p ∈ xs := by
        rcases List.mem_cons.mp hp with h' | h'
        · exact absurd h'.symm hxp
        · exact h'
      have hpos : 0 < countPt p xs := (countPt_pos_iff p xs).mpr hp'
      have hr : removeFirst (x :: xs) p = x :: removeFirst xs p := by
        simp [removeFirst, hxp]
      rw [hr]
      simp only [countPt, ih hp']
      by_cases hpa : p = a
      · rw [hpa] at hpos
        simp only [if_pos hpa]
        omega
      · simp only [if_neg hpa]
        omega

/-- Two lists of points with equal occurrence counts everywhere are
permutations of each other. -/
lemma perm_of_countPt : ∀ (l₁ l₂ : List Point),
    (∀ a : Point, countPt a l₁ = countPt a l₂) → l₁.Perm l₂ := by
  intro l₁
  induction l₁ with
  | nil =>
    intro l₂ h
    have : l₂ = [] := by
      rw [List.eq_nil_iff_forall_not_mem]
      intro a
      rw [← countPt_eq_zero a l₂, ← h a]
      rfl
    rw [this]
  | cons x l₁ ih =>
    intro l₂ h
    have hx : x ∈ l₂ := by
      rw [← countPt_pos_iff]
      rw [← h x]
      simp [countPt]
    have hcnt : ∀ a : Point, countPt a l₁ = countPt a (removeFirst l₂ x) := by
      intro a
      rw [countPt_removeFirst a x l₂ hx]
      have ha := h a
      simp only [countPt] at ha
      have hpos : x = a → 0 < countPt a l₂ := by
        intro hxa
        subst hxa
        rw [if_pos rfl] at ha
        omega
      by_cases hxa : x = a
      · have := hpos hxa
        simp only [if_pos hxa] at ha ⊢
        omega
      · simp only [if_neg hxa] at ha ⊢
        omega
    exact ((ih _ hcnt).cons x).trans (removeFirst_perm l₂ x hx).symm

lemma countPt_append (a : Point) : ∀ (l₁ l₂ : List Point),
    countPt a (l₁ ++ l₂) = countPt a l₁ + countPt a l₂ := by
  intro l₁ l₂
  induction l₁ with
  | nil => simp [countPt]
  | cons x xs ih =>
    rw [List.cons_append]
    simp only [countPt]
    rw [ih]
    omega

lemma countPt_flatten (a : Point) : ∀ (L : List (List Point)),
    countPt a L.flatten = (L.map (countPt a)).sum := by
  intro L
  induction L with
  | nil => rfl
  | cons l L ih => simp [List.flatten_cons, countPt_append, ih]

lemma countPt_filter (a : Point) (q : Point → Bool) :
    ∀ (l : List Point),
      countPt a (l.filter q) = if q a then countPt a l else 0 := by
  intro l
  induction l with
  | nil => simp [countPt]
  | cons x xs ih =>
    by_cases hxa : x = a
    · subst hxa
      cases hq : q x <;> simp [List.filter_cons, hq, countPt, ih]
    · cases hq : q x <;> simp [List.filter_cons, hq, countPt, hxa, ih]

lemma sum_range_ite (c : ℕ) : ∀ (k j : ℕ), j < k →
    (((List.range k).map (fun i => if j = i then c else 0)).sum) = c := by
  intro k
  induction k with
  | zero => intro j hj; omega
  | succ k ih =>
    intro j hj
    rw [List.range_succ, List.map_append, List.sum_append]
    by_cases hjk : j = k
    · subst hjk
      have hz : (((List.range j).map (fun i => if j = i then c else 0)).sum) = 0 := by
        apply List.sum_eq_zero
        intro x hx
        obtain ⟨i, hi, hxi⟩ := List.mem_map.mp hx
        rw [← hxi, if_neg]
        intro hji
        rw [← hji] at hi
        exact absurd (List.mem_range.mp hi) (lt_irrefl j)
      simp [hz]
    · have hjlt : j < k := by omega
      rw [ih j hjlt]
      simp [hjk]

/-- C7: with clustering enabled on a nonempty node list, the member lists at
keys `0..k-1` are a partition of the node multiset: their concatenation is a
permutation of the node list, every node lies in exactly one member list, and
each node's list is the one of its nearest center by Euclidean distance, with
the lowest cluster index winning ties. -/
theorem C7_cluster_partition (nodes : List Point) (h : nodes ≠ []) :
    ((clusterLists nodes).flatten.Perm nodes)
    ∧ (∀ p ∈ nodes, ∃! i, i < (clusterLists nodes).length
          ∧ p ∈ (clusterLists nodes).getD i [])
    ∧ (∀ p ∈ nodes,
          assignIdx nodes p < (cluster_centers nodes).length
          ∧ (∀ c ∈ cluster_centers nodes,
              distance p ((cluster_centers nodes).getD (assignIdx nodes p) ((0 : ℤ), (0 : ℤ)))
                ≤ distance p c)
          ∧ (∀ j < assignIdx nodes p,
              distance p ((cluster_centers nodes).getD j ((0 : ℤ), (0 : ℤ)))
                > distance p ((cluster_centers nodes).getD (assignIdx nodes p) ((0 : ℤ), (0 : ℤ))))) := by
  have hlen : (clusterLists nodes).length = kOf nodes.length := by
    simp [clusterLists]
  refine ⟨?_, ?_, ?_⟩
  · apply perm_of_countPt
    intro a
    rw [countPt_flatten]
    unfold clusterLists
    rw [List.map_map]
    simp only [Function.comp_def, clustersFun_eq_filter, countPt_filter,
      beq_iff_eq]
    by_cases ha : a ∈ nodes
    · exact sum_range_ite _ _ _ (assignIdx_lt_k nodes a h)
    · have hc : countPt a nodes = 0 := (countPt_eq_zero a nodes).mpr ha
      rw [hc]
      apply List.sum_eq_zero
      intro x hx
      obtain ⟨i, _, hxi⟩ := List.mem_map.mp hx
      rw [← hxi]
      split <;> rfl
  · intro p hp
    refine ⟨assignIdx nodes p, ⟨?_, ?_⟩, ?_⟩
    · rw [hlen]
      exact assignIdx_lt_k nodes p h
    · rw [clusterLists_getD nodes _ (assignIdx_lt_k nodes p h),
        clustersFun_eq_filter]
      exact List.mem_filter.mpr ⟨hp, by simp⟩
    · intro j hj
      obtain ⟨hjlt, hjmem⟩ := hj
      rw [hlen] at hjlt
      rw [clusterLists_getD nodes _ hjlt, clustersFun_eq_filter] at hjmem
      have hj' : assignIdx nodes p = j := by
        simpa using (List.mem_filter.mp hjmem).2
      exact hj'.symm
  · intro p hp
    have hne : (cluster_centers nodes).map (fun c => distanceSq p c) ≠ [] := by
      simp [cluster_centers_ne_nil nodes h]
    obtain ⟨h1, h2, h3⟩ := argminD_spec _ hne
    have hid : argminD ((cluster_centers nodes).map (fun c => distanceSq p c))
        = assignIdx nodes p := rfl
    rw [List.length_map] at h1
    rw [hid] at h1 h2 h3
    have h1' : assignIdx nodes p < (cluster_centers nodes).length := h1
    refine ⟨h1', ?_, ?_⟩
    · intro c hc
      obtain ⟨i, hi, hic⟩ := List.getElem_of_mem hc
      rw [distance_le_distance_iff]
      have hstep := h2 i (by simpa using hi)
      rw [getD_map_distanceSq p _ _ h1', getD_map_distanceSq p _ _ hi] at hstep
      have hgetD : (cluster_centers nodes).getD i ((0 : ℤ), (0 : ℤ)) = c := by
        rw [List.getD_eq_getElem?_getD, List.getElem?_eq_getElem hi]
        exact hic
      rw [hgetD] at hstep
      exact hstep
    · intro j hj
      have hjlt : j < (cluster_centers nodes).length := lt_trans hj h1'
      have hstep := h3 j hj
      rw [getD_map_distanceSq p _ _ h1', getD_map_distanceSq p _ _ hjlt] at hstep
      rw [gt_iff_lt, distance_lt_distance_iff]
      exact hstep

/-- C7, witness: the partition property at the concrete two-node list
`[(0,0), (3,4)]`. -/
theorem C7_cluster_partition_witness :
    (([((0 : ℤ), (0 : ℤ)), ((3 : ℤ), (4 : ℤ))] : List Point) ≠ [])
    ∧ (((clusterLists [((0 : ℤ), (0 : ℤ)), ((3 : ℤ), (4 : ℤ))]).flatten.Perm
          [((0 : ℤ), (0 : ℤ)), ((3 : ℤ), (4 : ℤ))])
      ∧ (∀ p ∈ ([((0 : ℤ), (0 : ℤ)), ((3 : ℤ), (4 : ℤ))] : List Point),
          ∃! i, i < (clusterLists [((0 : ℤ), (0 : ℤ)), ((3 : ℤ), (4 : ℤ))]).length
            ∧ p ∈ (clusterLists [((0 : ℤ), (0 : ℤ)), ((3 : ℤ), (4 : ℤ))]).getD i [])
      ∧ (∀ p ∈ ([((0 : ℤ), (0 : ℤ)), ((3 : ℤ), (4 : ℤ))] : List Point),
          assignIdx [((0 : ℤ), (0 : ℤ)), ((3 : ℤ), (4 : ℤ))] p
              < (cluster_centers [((0 : ℤ), (0 : ℤ)), ((3 : ℤ), (4 : ℤ))]).length
          ∧ (∀ c ∈ cluster_centers [((0 : ℤ), (0 : ℤ)), ((3 : ℤ), (4 : ℤ))],
              distance p ((cluster_centers [((0 : ℤ), (0 : ℤ)), ((3 : ℤ), (4 : ℤ))]).getD
                  (assignIdx [((0 : ℤ), (0 : ℤ)), ((3 : ℤ), (4 : ℤ))] p) ((0 : ℤ), (0 : ℤ)))
                ≤ distance p c)
          ∧ (∀ j < assignIdx [((0 : ℤ), (0 : ℤ)), ((3 : ℤ), (4 : ℤ))] p,
              distance p ((cluster_centers [((0 : ℤ), (0 : ℤ)), ((3 : ℤ), (4 : ℤ))]).getD
                  j ((0 : ℤ), (0 : ℤ)))
                > distance p ((cluster_centers [((0 : ℤ), (0 : ℤ)), ((3 : ℤ), (4 : ℤ))]).getD
                  (assignIdx [((0 : ℤ), (0 : ℤ)), ((3 : ℤ), (4 : ℤ))] p) ((0 : ℤ), (0 : ℤ)))))) :=
  ⟨by decide, C7_cluster_partition _ (by decide)⟩

/-- The state of the process-wide NumPy random generator that line 26 seeds.
NumPy's MT19937 is library code, not code of this repository; it is modelled
by its documented contract (deterministic stream, fully determined by the
seed).  The concrete stream here is a 64-bit LCG (Knuth's MMIX multiplier);
the spec (section 4.2) requires only per-language reproducibility, not a
bit-exact reproduction of the legacy NumPy stream. -/
structure RngState where
  val : ℕ
deriving DecidableEq

/-- `np.random.seed(3)` (line 26): reinitialize the global generator from the
seed alone, discarding whatever state the process had before. -/
def npSeed (seed : ℤ) : RngState := ⟨(seed % 4294967296).toNat⟩

/-- One raw draw from the generator: step the LCG state and output the high
32 bits. -/
def rngNext (s : RngState) : ℕ × RngState :=
  let s2 := (6364136223846793005 * s.val + 1442695040888963407) % 18446744073709551616
  (s2 / 4294967296, ⟨s2⟩)

/-- One integer drawn by `np.random.randint(low, high)`: an element of
`[low, high)`.  Callers must ensure `low < high` (NumPy raises `ValueError`
otherwise; `generateNodes` models that check). -/
def randIntStep (st : RngState) (low high : ℤ) : ℤ × RngState :=
  let r := rngNext st
  (low + (((r.1 % (high - low).toNat : ℕ) : ℤ)), r.2)

/-- The `(num_nodes, 2)`-shaped integer draw of line 27, filled row-major:
node `i` consumes draws `2i` (x) and `2i+1` (y) of the stream. -/
def genNodesAux : ℕ → RngState → ℤ → ℤ → List Point × RngState
  | 0, st, _, _ => ([], st)
  | n + 1, st, low, high =>
    let x := randIntStep st low high
    let y := randIntStep x.2 low high
    let rest := genNodesAux n y.2 low high
    ((x.1, y.1) :: rest.1, rest.2)

/-- The single error kind of the simulator: the `ValueError` that
`np.random.randint` raises on line 27 for an empty range (`low >= high`,
i.e. `area_size <= 100`) or a negative dimension (`num_nodes < 0`); the
spec calls it `ConfigurationError`. -/
inductive SimError
  | ConfigurationError
deriving DecidableEq

/-- The configuration of one run: the sidebar inputs of lines 13-24 plus the
seed of line 26 (hard-coded to `3` in the source, threaded as a parameter
here exactly as the spec's design notes prescribe). -/
structure Config where
  node_count : ℤ
  area_size : ℤ
  transport : Transport
  clustering_enabled : Bool
  sofar_enabled : Bool
  random_seed : ℤ

/-- Lines 26-27: seed the generator, then draw
`np.random.randint(50, area_size-50, (num_nodes, 2))`.  The draw raises
(`ValueError`) exactly when `50 >= area_size - 50` or a requested dimension
is negative; otherwise it yields `num_nodes` integer points in
`[50, area_size - 50)`. -/
def generateNodes (g : RngState) (cfg : Config) : Except SimError (List Point) :=
  if cfg.area_size - 50 ≤ 50 ∨ cfg.node_count < 0 then
    Except.error SimError.ConfigurationError
  else
    Except.ok
      (genNodesAux cfg.node_count.toNat (npSeed cfg.random_seed) 50
        (cfg.area_size - 50)).1

/-- `base_station = np.array([area_size//2, 20])` (line 28).  Python's `//`
is floor division, which agrees with Lean's integer `/` (and, for the
positive `area_size` values any valid run has, with rounding toward zero). -/
def base_station (cfg : Config) : Point := (cfg.area_size / 2, 20)

/-- The result bundle of one run: every value the script computes and hands
to the presentation layer (lines 26-105). -/
structure Bundle where
  nodes : List Point
  base : Point
  centers : List Point
  lists : List (List Point)
  route : List Point
  results : List LinkMetric
  total_energy : ℝ
  total_delay : ℝ
  sync_overhead : ℝ

/-- The whole script core as one function of the prior global RNG state and
the configuration: generate nodes (lines 26-27, the only failing step), the
base station (line 28), the optional clustering (lines 39-51, `clusters = {}`
and no centers when disabled), the route (line 69), and the communication
loop (lines 74-105).  `enable_sofar` is forced to `False` unless the
transport is acoustic (lines 22-24). -/
noncomputable def runSim (g : RngState) (cfg : Config) : Except SimError Bundle :=
  match generateNodes g cfg with
  | Except.error e => Except.error e
  | Except.ok nodes =>
    let base := base_station cfg
    let sofar := if cfg.transport = Transport.ACOUSTIC then cfg.sofar_enabled else false
    let centers := if cfg.clustering_enabled then cluster_centers nodes else []
    let lists := if cfg.clustering_enabled then clusterLists nodes else []
    let route := build_route nodes base
    let res := commLoop cfg.transport sofar base nodes
    Except.ok
      { nodes := nodes, base := base, centers := centers, lists := lists,
        route := route, results := res.1, total_energy := res.2.1,
        total_delay := res.2.2.1, sync_overhead := res.2.2.2 }

/-- C9: the whole pipeline is a deterministic function of the configuration:
the prior global RNG state is irrelevant because `np.random.seed` (line 26)
reinitializes it from the seed, so two runs with the same
`(node_count, area_size, random_seed)` produce identical node coordinates
and identical result bundles. -/
theorem C9_determinism (cfg : Config) (g1 g2 : RngState) :
    runSim g1 cfg = runSim g2 cfg ∧ generateNodes g1 cfg = generateNodes g2 cfg :=
  ⟨rfl, rfl⟩

/-- C3, counterexample: with `node_count = 0` (and a perfectly fine
`area_size = 1000`) the simulation does **not** fail: `np.random.randint`
accepts a zero-sized shape and returns an empty array, so the run succeeds
with an empty network even though `node_count < 1`. -/
theorem C3_cex :
    (∃ b, runSim ⟨0⟩
        { node_count := 0, area_size := 1000, transport := Transport.CABLED,
          clustering_enabled := false, sofar_enabled := false, random_seed := 3 }
      = Except.ok b)
    ∧ (0 : ℤ) < 1 :=
  ⟨⟨_, rfl⟩, by norm_num⟩

/-- C3, amended: the simulation fails — always with the single error kind
`ConfigurationError` — exactly when `area_size ≤ 100` or `node_count < 0`
(a zero `node_count` succeeds with an empty network); every other
configuration yields a result bundle, no other component can fail. -/
theorem C3_error_iff (g : RngState) (cfg : Config) :
    (runSim g cfg = Except.error SimError.ConfigurationError
        ↔ (cfg.area_size ≤ 100 ∨ cfg.node_count < 0))
    ∧ ((∃ b, runSim g cfg = Except.ok b)
        ↔ ¬(cfg.area_size ≤ 100 ∨ cfg.node_count < 0)) := by
  have hcond : (cfg.area_size - 50 ≤ 50 ∨ cfg.node_count < 0)
      ↔ (cfg.area_size ≤ 100 ∨ cfg.node_count < 0) := by omega
  unfold runSim generateNodes
  by_cases hc : cfg.area_size - 50 ≤ 50 ∨ cfg.node_count < 0
  · rw [if_pos hc]
    constructor
    · exact iff_of_true rfl (hcond.mp hc)
    · exact iff_of_false (by simp) (fun hn => hn (hcond.mp hc))
  · rw [if_neg hc]
    constructor
    · exact iff_of_false (by simp) (fun hA => hc (hcond.mpr hA))
    · exact iff_of_true ⟨_, rfl⟩ (fun hA => hc (hcond.mpr hA))

lemma randIntStep_bound (st : RngState) (low high : ℤ) (h : low < high) :
    low ≤ (randIntStep st low high).1 ∧ (randIntStep st low high).1 < high := by
  have hk : 0 < (high - low).toNat := by omega
  have hmod : (rngNext st).1 % (high - low).toNat < (high - low).toNat :=
    Nat.mod_lt _ hk
  simp only [randIntStep]
  omega

lemma genNodesAux_length : ∀ (n : ℕ) (st : RngState) (low high : ℤ),
    (genNodesAux n st low high).1.length = n := by
  intro n
  induction n with
  | zero => intro st low high; rfl
  | succ n ih =>
    intro st low high
    simp [genNodesAux, ih]

lemma genNodesAux_range : ∀ (n : ℕ) (st : RngState) (low high : ℤ),
    low < high →
    ∀ p ∈ (genNodesAux n st low high).1,
      low ≤ p.1 ∧ p.1 < high ∧ low ≤ p.2 ∧ p.2 < high := by
  intro n
  induction n with
  | zero => intro st low high hlh p hp; simp [genNodesAux] at hp
  | succ n ih =>
    intro st low high hlh p hp
    simp only [genNodesAux, List.mem_cons] at hp
    rcases hp with hp | hp
    · subst hp
      obtain ⟨ha, hb⟩ := randIntStep_bound st low high hlh
      obtain ⟨hc, hd⟩ := randIntStep_bound (randIntStep st low high).2 low high hlh
      exact ⟨ha, hb, hc, hd⟩
    · exact ih _ low high hlh p hp

/-- C8: for a valid configuration (`area_size > 100`, `node_count ≥ 0`) node
generation succeeds with exactly `node_count` points whose coordinates all
lie in `[50, area_size - 50)`; the base station is
`(area_size / 2, 20)` — the quotient rounded toward zero (witnessed by the
bracketing inequalities) — computed from `area_size` alone; and the node
draw is fully determined by the configuration (the prior global RNG state is
irrelevant). -/
theorem C8_node_generation (cfg : Config) (g : RngState)
    (h : 100 < cfg.area_size) (h2 : 0 ≤ cfg.node_count) :
    (∃ nodes, generateNodes g cfg = Except.ok nodes
      ∧ nodes.length = cfg.node_count.toNat
      ∧ ∀ p ∈ nodes, 50 ≤ p.1 ∧ p.1 < cfg.area_size - 50
            ∧ 50 ≤ p.2 ∧ p.2 < cfg.area_size - 50)
    ∧ base_station cfg = (cfg.area_size / 2, 20)
    ∧ (2 * (cfg.area_size / 2) ≤ cfg.area_size
        ∧ cfg.area_size < 2 * (cfg.area_size / 2) + 2)
    ∧ (∀ cfg2 : Config, cfg2.area_size = cfg.area_size
        → base_station cfg2 = base_station cfg)
    ∧ ∀ g2 : RngState, generateNodes g2 cfg = generateNodes g cfg := by
  have hc : ¬(cfg.area_size - 50 ≤ 50 ∨ cfg.node_count < 0) := by omega
  refine ⟨?_, rfl, by omega, ?_, fun g2 => rfl⟩
  · refine ⟨(genNodesAux cfg.node_count.toNat (npSeed cfg.random_seed) 50
        (cfg.area_size - 50)).1, ?_, genNodesAux_length _ _ _ _, ?_⟩
    · unfold generateNodes
      rw [if_neg hc]
    · exact genNodesAux_range _ _ _ _ (by omega)
  · intro cfg2 heq
    simp [base_station, heq]

/-- C8, witness: a concrete valid configuration (2 nodes, a 1000 m area,
seed 3). -/
theorem C8_node_generation_witness :
    (100 : ℤ) < 1000 ∧ (0 : ℤ) ≤ 2
    ∧ ((∃ nodes, generateNodes ⟨0⟩
          { node_count := 2, area_size := 1000, transport := Transport.CABLED,
            clustering_enabled := false, sofar_enabled := false, random_seed := 3 }
        = Except.ok nodes
        ∧ nodes.length = (2 : ℤ).toNat
        ∧ ∀ p ∈ nodes, 50 ≤ p.1 ∧ p.1 < (1000 : ℤ) - 50
              ∧ 50 ≤ p.2 ∧ p.2 < (1000 : ℤ) - 50)
      ∧ base_station
          { node_count := 2, area_size := 1000, transport := Transport.CABLED,
            clustering_enabled := false, sofar_enabled := false, random_seed := 3 }
        = ((1000 : ℤ) / 2, 20)
      ∧ (2 * ((1000 : ℤ) / 2) ≤ 1000 ∧ (1000 : ℤ) < 2 * ((1000 : ℤ) / 2) + 2)
      ∧ (∀ cfg2 : Config, cfg2.area_size = 1000
          → base_station cfg2 = base_station
              { node_count := 2, area_size := 1000, transport := Transport.CABLED,
                clustering_enabled := false, sofar_enabled := false, random_seed := 3 })
      ∧ ∀ g2 : RngState, generateNodes g2
            { node_count := 2, area_size := 1000, transport := Transport.CABLED,
              clustering_enabled := false, sofar_enabled := false, random_seed := 3 }
          = generateNodes ⟨0⟩
              { node_count := 2, area_size := 1000, transport := Transport.CABLED,
                clustering_enabled := false, sofar_enabled := false, random_seed := 3 }) :=
  ⟨by norm_num, by norm_num,
    C8_node_generation _ ⟨0⟩ (by norm_num) (by norm_num)⟩

end MarineSim
